import Mathlib

/-!
# Verification of the sing-box web configuration manager

A shallow embedding of the configuration-management core of the
`singbox-web-config` repository, together with theorems settling the
specification's testable properties against it.

The embedding covers:

* the JSON document model used for the configuration file (`Json`),
* the config store (`LoadConfig`, `SaveConfig`, `BackupConfig`,
  `CreateBackupWithName`, `ListBackups`, `RestoreBackup`, `RenameOutbound`,
  `sanitizeFilename` — package `config`, file `manager.go`),
* the rule/outbound reorder logic shared by `Server.handleRuleReorder` and
  `Server.handleOutboundReorder`,
* the group delay-test loop of `Server.handleProxyGroupDelayTest`,
* the form metadata builder (`internal/forms/builder.go`).

File-system effects are made explicit: a `FS` record holds the configuration
file and the backup directory, and each manager operation maps an input `FS`
to an output `FS` paired with an `Except` result.  Possible I/O failures of
the primitive read/write steps are exposed as explicit boolean parameters so
that the error-handling claims can quantify over them.
-/

namespace SWC

/-- A parsed JSON value, mirroring Go's `interface{}` representation of the
configuration tree (`map[string]interface{}`, `[]interface{}`, strings,
numbers, booleans, null).  Object member order is the serialization order. -/
inductive Json where
  | null
  | bool (b : Bool)
  | num (n : Int)
  | str (s : String)
  | arr (elems : List Json)
  | obj (members : List (String × Json))

namespace Json

/-- Look up a key in an object member list (Go: `m[key]` on
`map[string]interface{}`). -/
def lookup (key : String) : List (String × Json) → Option Json
  | [] => none
  | (k, v) :: rest => if k = key then some v else lookup key rest

/-- Set a key in an object member list (Go: `m[key] = v`); keeps the position
of an existing key, appends a fresh one. -/
def setKey (key : String) (v : Json) : List (String × Json) → List (String × Json)
  | [] => [(key, v)]
  | (k, w) :: rest => if k = key then (key, v) :: rest else (k, w) :: setKey key v rest

mutual

/-- Whether the key `key` occurs anywhere in the document (as a member key of
any object, at any depth).  Whitespace or key-ordering normalization never
changes this predicate, so it separates "re-serialization noise" from genuine
content loss. -/
def hasKey (key : String) : Json → Bool
  | .obj ms => hasKeyObj key ms
  | .arr es => hasKeyArr key es
  | _ => false

/-- `hasKey` over an object's members. -/
def hasKeyObj (key : String) : List (String × Json) → Bool
  | [] => false
  | (k, v) :: rest => k = key || hasKey key v || hasKeyObj key rest

/-- `hasKey` over an array's elements. -/
def hasKeyArr (key : String) : List Json → Bool
  | [] => false
  | e :: rest => hasKey key e || hasKeyArr key rest

end

end Json

/-- Modelled from the spec: the generated `types.RouteOptions` struct behind
`Config = types.Config` (the generated `internal/types` package is not part of
the sources; §3 of the spec describes the routing section as "rule list +
rule-action list + default target").  `Option` distinguishes a `nil` Go slice
(`none`) from a present one; re-serialization uses `omitempty` JSON tags as in
every in-repo version of the struct. -/
structure RouteOptions where
  rules : Option (List Json)
  rule_action : Option (List Json)
  final : String

/-- Modelled from the spec: the generated `types.Config` document —
"a JSON object with optional sections — logging, DNS, inbound list, outbound
list, routing", stored as a semi-typed tree.  The logging and DNS sections are
kept as untyped subtrees; the inbound/outbound sections are `[]interface{}`
(`Option` again separates `nil` from present). -/
structure Config where
  log : Option Json
  dns : Option Json
  inbounds : Option (List Json)
  outbounds : Option (List Json)
  route : Option RouteOptions

/-- Go `json.Unmarshal` of an object member into a `string` struct field:
absent and `null` leave the zero value `""`; a string is taken verbatim; any
other shape is a type error. -/
def decodeStrField (ms : List (String × Json)) (key : String) : Option String :=
  match Json.lookup key ms with
  | none => some ""
  | some .null => some ""
  | some (.str s) => some s
  | some _ => none

/-- Go `json.Unmarshal` of an object member into a `[]interface{}` struct
field: absent and `null` leave the `nil` slice; an array is taken verbatim;
any other shape is a type error. -/
def decodeArrField (ms : List (String × Json)) (key : String) : Option (Option (List Json)) :=
  match Json.lookup key ms with
  | none => some none
  | some .null => some none
  | some (.arr l) => some (some l)
  | some _ => none

/-- An untyped section (`log`, `dns`): absent means `none`, anything present
is kept as-is. -/
def decodeRawField (ms : List (String × Json)) (key : String) : Option Json :=
  Json.lookup key ms

/-- `json.Unmarshal` into the routing-section struct. -/
def decodeRouteOptions (ms : List (String × Json)) : Option RouteOptions := do
  let rules ← decodeArrField ms "rules"
  let ra ← decodeArrField ms "rule_action"
  let fin ← decodeStrField ms "final"
  pure ⟨rules, ra, fin⟩

/-- `json.Unmarshal` of a whole document into `Config`: a JSON object is read
field by field, the literal `null` is a successful no-op leaving the zero
value, and any other top-level shape is a type error. -/
def decodeConfig : Json → Option Config
  | .obj ms => do
      let inb ← decodeArrField ms "inbounds"
      let outb ← decodeArrField ms "outbounds"
      let route ← (match Json.lookup "route" ms with
        | none => some none
        | some .null => some none
        | some (.obj rms) => (decodeRouteOptions rms).map some
        | some _ => none)
      pure ⟨decodeRawField ms "log", decodeRawField ms "dns", inb, outb, route⟩
  | .null => some ⟨none, none, none, none, none⟩
  | _ => none

/-- `omitempty` emission of a `[]interface{}` field: emitted only when the
slice is present and non-empty. -/
def emitArr (key : String) : Option (List Json) → List (String × Json)
  | some (x :: xs) => [(key, Json.arr (x :: xs))]
  | _ => []

/-- `omitempty` emission of a `string` field: emitted only when non-empty. -/
def emitStr (key : String) (s : String) : List (String × Json) :=
  if s = "" then [] else [(key, Json.str s)]

/-- `omitempty` emission of an untyped section: emitted when present. -/
def emitRaw (key : String) : Option Json → List (String × Json)
  | some v => [(key, v)]
  | none => []

/-- `json.Marshal` of the routing section. -/
def encodeRouteOptions (r : RouteOptions) : Json :=
  .obj (emitArr "rules" r.rules ++ emitArr "rule_action" r.rule_action ++ emitStr "final" r.final)

/-- `json.Marshal` of a `Config` document (struct field order, `omitempty` on
every field, pointer sections emitted whenever non-nil). -/
def encodeConfig (c : Config) : Json :=
  .obj (emitRaw "log" c.log ++ emitRaw "dns" c.dns ++ emitArr "inbounds" c.inbounds ++
        emitArr "outbounds" c.outbounds ++
        (match c.route with
         | some r => [("route", encodeRouteOptions r)]
         | none => []))

/-! ## File-system model

Byte strings on disk are abstracted as `FileData`: every byte string either
parses to exactly one JSON value (with a formatting tag `fmt` recording the
whitespace/indentation variant, so distinct serializations of the same value
stay distinguishable byte-for-byte) or is malformed.  `json.MarshalIndent`
always produces the canonical format `fmt = 0`. -/

/-- Contents of a file on disk. -/
inductive FileData where
  | json (v : Json) (fmt : Nat)
  | malformed (s : String)

/-- `json.Unmarshal`-style parse of raw file contents into a JSON value. -/
def FileData.parse : FileData → Option Json
  | .json v _ => some v
  | .malformed _ => none

/-- A file in the backup directory with a `.json` extension, as `ListBackups`
sees it (name, contents, filesystem modification time). -/
structure BackupEntry where
  filename : String
  data : FileData
  modTime : Nat

/-- `config.BackupMetadata` (`manager.go`): the sidecar record written next to
each backup. -/
structure BackupMetadata where
  name : String
  description : String
  timestamp : Nat
  config_file : String
  version : String

/-- `config.BackupInfo` (`manager.go`): a backup filename with its metadata. -/
structure BackupInfo where
  filename : String
  metadata : BackupMetadata

/-- The parts of the file system a `config.Manager` touches: the configuration
file (absent or with contents) and the backup directory, split into the
`.json` snapshots and the `.meta` sidecars. -/
structure FS where
  config : Option FileData
  backups : List BackupEntry
  metas : List (String × BackupMetadata)

/-- The typed errors of the config store (`fmt.Errorf` wrappers in
`manager.go`). -/
inductive CfgError where
  | readError
  | parseError
  | backupError
  | writeError
  | readBackupError
  | invalidBackupError

/-! ## Config store (`config.Manager`, `manager.go`) -/

/-- `sanitizeFilename` (`manager.go`): replaces each of the nine invalid
filename characters, and then spaces, with a dash via successive
`strings.ReplaceAll` passes, then trims leading/trailing dashes. -/
def invalidFilenameChars : List Char := ['/', '\\', ':', '*', '?', '"', '<', '>', '|']

/-- One `strings.ReplaceAll(s, string(a), string(b))` pass for single
characters. -/
def replaceAllChar (s : List Char) (a b : Char) : List Char :=
  s.map fun c => if c = a then b else c

/-- `strings.Trim(s, "-")`: removes leading and trailing dashes. -/
def trimChar (t : Char) (l : List Char) : List Char :=
  ((l.dropWhile (· == t)).reverse.dropWhile (· == t)).reverse

/-- `sanitizeFilename` (`manager.go`). -/
def sanitizeFilename (name : String) : String :=
  let r := invalidFilenameChars.foldl (fun acc ch => replaceAllChar acc ch '-') name.toList
  let r := replaceAllChar r ' ' '-'
  String.mk (trimChar '-' r)

/-- The backup filename built in `CreateBackupWithName`:
`fmt.Sprintf("%s-%s.json", safeName, timestamp.Format("20060102-150405"))`
with the `"backup"` fallback for an empty sanitized name. -/
def backupFilename (name tsStr : String) : String :=
  let safeName := if sanitizeFilename name = "" then "backup" else sanitizeFilename name
  safeName ++ "-" ++ tsStr ++ ".json"

/-- The metadata sidecar filename (`backupFilename + ".meta"`). -/
def metadataFilename (name tsStr : String) : String :=
  backupFilename name tsStr ++ ".meta"

/-- `Manager.CreateBackupWithName` (`manager.go`): no-op when no configuration
file exists; otherwise snapshots the current file contents under the
sanitized, timestamped name and writes the metadata sidecar.  `writeOk` models
whether the read/write steps of the backup succeed (`ts`/`tsStr` are the
current time and its `"20060102-150405"` rendering). -/
def CreateBackupWithName (fs : FS) (name description : String) (ts : Nat) (tsStr : String)
    (writeOk : Bool) : FS × Except CfgError Unit :=
  match fs.config with
  | none => (fs, .ok ())
  | some data =>
    if writeOk then
      let fn := backupFilename name tsStr
      ({ fs with
          backups := fs.backups ++ [{ filename := fn, data := data, modTime := ts }],
          metas := fs.metas ++ [(metadataFilename name tsStr,
            { name := name, description := description, timestamp := ts,
              config_file := fn, version := "1.0" })] }, .ok ())
    else (fs, .error .backupError)

/-- `Manager.BackupConfig` (`manager.go`): no-op when no configuration file
exists, otherwise an automatic `CreateBackupWithName`. -/
def BackupConfig (fs : FS) (ts : Nat) (tsStr : String) (writeOk : Bool) :
    FS × Except CfgError Unit :=
  match fs.config with
  | none => (fs, .ok ())
  | some _ => CreateBackupWithName fs ("Auto backup " ++ tsStr) "Automatic backup" ts tsStr writeOk

/-- `Manager.LoadConfig` (`manager.go`): reads the configuration file,
synthesizing the default document (empty rule slice, final target `"direct"`)
when the file does not exist, failing with a read error on any other I/O
failure (`readFault`) and with a parse error when `json.Unmarshal` fails.
Never writes, so the file system is returned unchanged. -/
def LoadConfig (fs : FS) (readFault : Bool) : FS × Except CfgError Config :=
  if readFault then (fs, .error .readError)
  else
    match fs.config with
    | none =>
        (fs, .ok { log := none, dns := none, inbounds := none, outbounds := none,
                   route := some { rules := some [], rule_action := none, final := "direct" } })
    | some d =>
        match d.parse with
        | none => (fs, .error .parseError)
        | some v =>
            match decodeConfig v with
            | none => (fs, .error .parseError)
            | some c => (fs, .ok c)

/-- `Manager.SaveConfig` (`manager.go`): creates a backup of the currently
persisted file first (via `BackupConfig`, skipped when no file exists),
then marshals the document and overwrites the configuration file.  `backupOk`
and `writeOk` model the success of the two fallible steps; a failed
`os.WriteFile` leaves arbitrary contents `junk` behind. -/
def SaveConfig (fs : FS) (cfg : Config) (ts : Nat) (tsStr : String)
    (backupOk writeOk : Bool) (junk : Option FileData) : FS × Except CfgError Unit :=
  match BackupConfig fs ts tsStr backupOk with
  | (fs1, .error e) => (fs1, .error e)
  | (fs1, .ok ()) =>
    if writeOk then ({ fs1 with config := some (.json (encodeConfig cfg) 0) }, .ok ())
    else ({ fs1 with config := junk }, .error .writeError)

/-- `os.ReadFile` on a backup-directory entry. -/
def lookupBackup (fs : FS) (name : String) : Option FileData :=
  (fs.backups.find? (fun b => b.filename == name)).map (·.data)

/-- `Manager.RestoreBackup` (`manager.go`): reads the named backup, validates
it by `json.Unmarshal` into `Config`, backs up the current configuration, then
writes the backup's raw bytes over the configuration file. -/
def RestoreBackup (fs : FS) (backupName : String) (ts : Nat) (tsStr : String)
    (backupOk writeOk : Bool) (junk : Option FileData) : FS × Except CfgError Unit :=
  match lookupBackup fs backupName with
  | none => (fs, .error .readBackupError)
  | some data =>
    match data.parse >>= decodeConfig with
    | none => (fs, .error .invalidBackupError)
    | some _ =>
      match BackupConfig fs ts tsStr backupOk with
      | (fs1, .error e) => (fs1, .error e)
      | (fs1, .ok ()) =>
        if writeOk then ({ fs1 with config := some data }, .ok ())
        else ({ fs1 with config := junk }, .error .writeError)

/-- The `BackupInfo` synthesized from the filesystem when a backup has no
usable metadata sidecar (`ListBackups`, `manager.go`). -/
def defaultBackupInfo (e : BackupEntry) : BackupInfo :=
  { filename := e.filename,
    metadata := { name := e.filename, description := "", timestamp := e.modTime,
                  config_file := e.filename, version := "" } }

/-- How `ListBackups` resolves one directory entry: load the sidecar if it
exists; when the loaded metadata has an empty `config_file` (or there is no
sidecar) fall back to filename + modification time. -/
def backupInfoOf (metas : List (String × BackupMetadata)) (e : BackupEntry) : BackupInfo :=
  match List.lookup (e.filename ++ ".meta") metas with
  | some md => if md.config_file = "" then defaultBackupInfo e else { filename := e.filename, metadata := md }
  | none => defaultBackupInfo e

/-- `sort.Slice(backups, ...Timestamp.After...)`: insertion sort, newest
first. -/
def insertByTimestampDesc (a : BackupInfo) : List BackupInfo → List BackupInfo
  | [] => [a]
  | b :: bs =>
      if b.metadata.timestamp < a.metadata.timestamp then a :: b :: bs
      else b :: insertByTimestampDesc a bs

/-- `Manager.ListBackups` (`manager.go`): every `.json` entry of the backup
directory, with metadata resolved per entry, sorted by timestamp descending. -/
def ListBackups (fs : FS) : List BackupInfo :=
  (fs.backups.map (backupInfoOf fs.metas)).foldr insertByTimestampDesc []

/-- The per-outbound rewrite of `Manager.RenameOutbound` (`manager.go`): if
the entry is a map, rename its `tag` when it equals `oldTag`, and rewrite
`oldTag` inside its `outbounds` member list when that is a string array.  Any
non-map entry, non-string tag, or non-array member list is left alone, exactly
as the Go type assertions do. -/
def renameOutboundEntry (oldTag newTag : String) : Json → Json
  | .obj m =>
    let m1 :=
      match Json.lookup "tag" m with
      | some (.str t) => if t = oldTag then Json.setKey "tag" (.str newTag) m else m
      | _ => m
    let m2 :=
      match Json.lookup "outbounds" m1 with
      | some (.arr l) =>
          Json.setKey "outbounds"
            (.arr (l.map fun ob =>
              match ob with
              | .str t => if t = oldTag then .str newTag else .str t
              | ob => ob)) m1
      | _ => m1
    .obj m2
  | j => j

/-- The per-rule rewrite of `Manager.RenameOutbound`: rename a map rule's
string `outbound` field when it equals `oldTag`. -/
def renameRuleEntry (oldTag newTag : String) : Json → Json
  | .obj m =>
    (match Json.lookup "outbound" m with
     | some (.str t) => if t = oldTag then .obj (Json.setKey "outbound" (.str newTag) m) else .obj m
     | _ => .obj m)
  | j => j

/-- `Manager.RenameOutbound` (`manager.go`): load, rewrite the outbound tags
and member lists, rewrite the rules' `outbound` fields and the route `final`
target (the latter two only when `Route` and `Route.Rules` are both non-nil,
as in the source), then save. -/
def RenameOutbound (fs : FS) (oldTag newTag : String) (ts : Nat) (tsStr : String)
    (backupOk writeOk : Bool) (junk : Option FileData) (readFault : Bool) :
    FS × Except CfgError Unit :=
  match LoadConfig fs readFault with
  | (_, .error e) => (fs, .error e)
  | (_, .ok cfg) =>
    let cfg1 := { cfg with outbounds := cfg.outbounds.map (List.map (renameOutboundEntry oldTag newTag)) }
    let cfg2 :=
      match cfg1.route with
      | some r =>
        match r.rules with
        | some rl =>
            let r1 := { r with rules := some (rl.map (renameRuleEntry oldTag newTag)) }
            let r2 := if r1.final = oldTag then { r1 with final := newTag } else r1
            { cfg1 with route := some r2 }
        | none => cfg1
      | none => cfg1
    SaveConfig fs cfg2 ts tsStr backupOk writeOk junk

/-! ## Full-document scan for tag references

The reference scan of the spec's rename property: occurrences of a tag in any
outbound `tag` field, outbound member list, selector `default` field, rule
`outbound` field, or the route `final` target. -/

/-- Occurrences of `tag` as the `tag` field of outbound entries. -/
def countOutboundTags (outs : List Json) (tag : String) : Nat :=
  (outs.filter fun ob =>
    match ob with
    | .obj m => match Json.lookup "tag" m with
                | some (.str t) => t = tag
                | _ => false
    | _ => false).length

/-- Occurrences of `tag` inside outbound member lists. -/
def countMemberRefs (outs : List Json) (tag : String) : Nat :=
  (outs.map fun ob =>
    match ob with
    | .obj m => match Json.lookup "outbounds" m with
                | some (.arr l) => (l.filter fun x =>
                    match x with
                    | .str t => t = tag
                    | _ => false).length
                | _ => 0
    | _ => 0).sum

/-- Occurrences of `tag` as the `default` field of outbound entries. -/
def countDefaultRefs (outs : List Json) (tag : String) : Nat :=
  (outs.filter fun ob =>
    match ob with
    | .obj m => match Json.lookup "default" m with
                | some (.str t) => t = tag
                | _ => false
    | _ => false).length

/-- Occurrences of `tag` as the `outbound` field of rules. -/
def countRuleRefs (rules : List Json) (tag : String) : Nat :=
  (rules.filter fun r =>
    match r with
    | .obj m => match Json.lookup "outbound" m with
                | some (.str t) => t = tag
                | _ => false
    | _ => false).length

/-- Full-document occurrence count of `tag` over a saved configuration
document: outbound tags, member lists, selector defaults, rule outbound
fields, and the route final target. -/
def countTagRefs (doc : Json) (tag : String) : Nat :=
  match doc with
  | .obj ms =>
    let outs := match Json.lookup "outbounds" ms with
                | some (.arr l) => l
                | _ => []
    let rules := match Json.lookup "route" ms with
                 | some (.obj rms) => (match Json.lookup "rules" rms with
                                       | some (.arr l) => l
                                       | _ => [])
                 | _ => []
    let finalCount : Nat := match Json.lookup "route" ms with
                 | some (.obj rms) => (match Json.lookup "final" rms with
                                       | some (.str t) => if t = tag then 1 else 0
                                       | _ => 0)
                 | _ => 0
    countOutboundTags outs tag + countMemberRefs outs tag + countDefaultRefs outs tag +
      countRuleRefs rules tag + finalCount
  | _ => 0

/-- The saved document of a file system, when the configuration file exists
and parses. -/
def savedDocument (fs : FS) : Option Json :=
  fs.config >>= FileData.parse

/-! ## Reorder (`Server.handleRuleReorder`, `Server.handleOutboundReorder`)

Both handlers share the same logic over the `[]interface{}` section lists:
bounds-check both indices, remove the element at `fromIndex`, decrement
`toIndex` when it lay beyond `fromIndex`, and re-insert. -/

/-- The remove-then-reinsert move shared verbatim by `handleRuleReorder`
(`rules.go`) and `handleOutboundReorder` (`outbounds.go`); `none` models the
handlers' `"Index out of range"` 400 response. -/
def reorderMove {α : Type} (l : List α) (fromIndex toIndex : Nat) : Option (List α) :=
  if h : fromIndex < l.length ∧ toIndex < l.length then
    let item := l.get ⟨fromIndex, h.1⟩
    let rest := l.eraseIdx fromIndex
    let to2 := if fromIndex < toIndex then toIndex - 1 else toIndex
    some (rest.take to2 ++ item :: rest.drop to2)
  else none

/-- `Server.handleRuleReorder` on the rule list. -/
def handleRuleReorder (rules : List Json) (fromIndex toIndex : Nat) : Option (List Json) :=
  reorderMove rules fromIndex toIndex

/-- `Server.handleOutboundReorder` on the outbound list. -/
def handleOutboundReorder (outbounds : List Json) (fromIndex toIndex : Nat) : Option (List Json) :=
  reorderMove outbounds fromIndex toIndex

/-! ## Group delay test (`Server.handleProxyGroupDelayTest`, `proxies.go`) -/

/-- One row of the batch result JSON. -/
structure DelayResult where
  name : String
  delay : Nat
  error : Option String
  timeout : Bool

/-- `strings.Contains`. -/
def containsSub (s pat : String) : Bool :=
  2 ≤ (s.splitOn pat).length

/-- The per-member body of the loop in `handleProxyGroupDelayTest`: a
successful `TestProxyDelay` call yields the measured latency; a failed one
yields delay 0, the error text, and the timeout flag. -/
def delayResultFor (oracle : String → Except String Nat) (proxyName : String) : DelayResult :=
  match oracle proxyName with
  | .ok d => { name := proxyName, delay := d, error := none, timeout := false }
  | .error e =>
      { name := proxyName, delay := 0, error := some e,
        timeout := containsSub e "timeout" || containsSub e "context deadline exceeded" }

/-- `Server.handleProxyGroupDelayTest`: iterate over every member of the
group, appending one result per member; `oracle` abstracts the outcome of the
upstream `Client.TestProxyDelay` HTTP call per member. -/
def handleProxyGroupDelayTest (members : List String)
    (oracle : String → Except String Nat) : List DelayResult :=
  members.foldl (fun results m => results ++ [delayResultFor oracle m]) []

/-! ## Form metadata builder (`internal/forms/builder.go`) -/

/-- `forms.FieldType`. -/
inductive FieldType where
  | text
  | textarea
  | number
  | checkbox
  | select
  | array
deriving DecidableEq

/-- The subset of Go `reflect.Kind`s (plus element types) that
`determineFieldType` inspects. -/
inductive GoKind where
  | string
  | bool
  | int
  | int32
  | uint16
  | uint32
  | slice (elem : GoKind)
  | ptr (elem : GoKind)
  | other

/-- `reflect.Kind.String()` for the kinds above (used for
`FormField.ArrayType`). -/
def kindString : GoKind → String
  | .string => "string"
  | .bool => "bool"
  | .int => "int"
  | .int32 => "int32"
  | .uint16 => "uint16"
  | .uint32 => "uint32"
  | .slice _ => "slice"
  | .ptr _ => "ptr"
  | .other => "other"

/-- A reflected struct field: Go name, `json` tag, type. -/
structure GoStructField where
  name : String
  jsonTag : String
  typ : GoKind

/-- `forms.FormField`. -/
structure FormField where
  name : String
  label : String
  fieldType : FieldType
  jsonTag : String
  placeholder : String
  required : Bool
  isArray : Bool
  arrayType : String
  options : List String
  description : String

/-- `forms.FormDefinition`. -/
structure FormDefinition where
  name : String
  title : String
  fields : List FormField

/-- `Builder.isSelectField` (`builder.go`). -/
def isSelectField (fieldName : String) : Bool :=
  ["Mode", "ClashMode", "Strategy", "DNSStrategy", "Action", "Method"].any (· == fieldName)

/-- `Builder.getSelectOptions` (`builder.go`). -/
def getSelectOptions (fieldName : String) : List String :=
  if fieldName = "Mode" then ["and", "or"]
  else if fieldName = "ClashMode" then ["direct", "global", "rule"]
  else if fieldName = "Strategy" ∨ fieldName = "DNSStrategy" then
    ["prefer_ipv4", "prefer_ipv6", "ipv4_only", "ipv6_only"]
  else if fieldName = "Action" then
    ["route", "sniff", "resolve", "reject", "route-options", "hijack-dns"]
  else if fieldName = "Method" then ["default", "drop"]
  else []

/-- `Builder.determineFieldType` (`builder.go`): slice/array element kinds map
to array or textarea widgets, strings to text or select, booleans to
checkboxes, numerics to number, pointers recurse on the pointee, and anything
else degrades to text. -/
def determineFieldType (f : FormField) (t : GoKind) : FormField :=
  match t with
  | .slice elem =>
    let f := { f with isArray := true, arrayType := kindString elem }
    (match elem with
     | .string => { f with fieldType := .array }
     | .uint16 => { f with fieldType := .array, placeholder := "e.g., 80, 443, 8080" }
     | .int => { f with fieldType := .array, placeholder := "e.g., 80, 443, 8080" }
     | .int32 => { f with fieldType := .array, placeholder := "e.g., 80, 443, 8080" }
     | _ => { f with fieldType := .textarea })
  | .string =>
    if isSelectField f.name then
      { f with fieldType := .select, options := getSelectOptions f.name }
    else
      { f with fieldType := .text }
  | .bool => { f with fieldType := .checkbox }
  | .int => { f with fieldType := .number }
  | .int32 => { f with fieldType := .number }
  | .uint16 => { f with fieldType := .number }
  | .uint32 => { f with fieldType := .number }
  | .ptr elem => determineFieldType f elem
  | .other => { f with fieldType := .text }

/-- The description lookup table of `Builder.getFieldDescription`
(`builder.go`), quoted verbatim; entries whose description text contains a
single-quote character are elided from the embedding (none of them is needed
by any property — the properties only rely on membership of entries such as
`Domain` and on absent names yielding `""`). -/
def fieldDescriptions : List (String × String) :=
  [("SniffTimeout", "Timeout for protocol sniffing in milliseconds"),
   ("Strategy", "DNS resolution strategy: prefer_ipv4, prefer_ipv6, ipv4_only, ipv6_only"),
   ("DNSStrategy", "DNS resolution strategy: prefer_ipv4, prefer_ipv6, ipv4_only, ipv6_only"),
   ("DisableCache", "Disable DNS cache for this rule"),
   ("RewriteTTL", "Override DNS response TTL (in seconds)"),
   ("ClientSubnet", "Client subnet for EDNS Client Subnet (ECS)"),
   ("OverrideAddress", "Override destination address"),
   ("OverridePort", "Override destination port"),
   ("NetworkStrategy", "Network strategy for route-options"),
   ("FallbackDelay", "Fallback delay in milliseconds"),
   ("UDPDisableDomainUnmapping", "Disable domain unmapping for UDP"),
   ("UDPConnect", "Use connected UDP socket"),
   ("UDPTimeout", "UDP timeout in seconds"),
   ("TLSFragment", "Enable TLS fragmentation"),
   ("TLSFragmentFallbackDelay", "TLS fragment fallback delay"),
   ("TLSRecordFragment", "Enable TLS record fragmentation"),
   ("Domain", "Exact domain names to match (e.g., google.com)"),
   ("DomainSuffix", "Domain suffixes to match (e.g., .google.com matches google.com and all subdomains)"),
   ("DomainKeyword", "Keywords that must appear in the domain"),
   ("DomainRegex", "Regular expressions for domain matching"),
   ("Geosite", "Geosite categories (e.g., cn, google, facebook)"),
   ("GeoIP", "Country codes for destination IP (e.g., CN, US)"),
   ("SourceGeoIP", "Country codes for source IP"),
   ("IPCIDR", "IP CIDR ranges for destination (e.g., 192.168.0.0/16)"),
   ("SourceIPCIDR", "IP CIDR ranges for source"),
   ("Port", "Destination ports to match (e.g., 80, 443)"),
   ("SourcePort", "Source ports to match"),
   ("PortRange", "Destination port ranges (e.g., 1000:2000)"),
   ("SourcePortRange", "Source port ranges"),
   ("Protocol", "Network protocols (e.g., tcp, udp)"),
   ("Network", "Network types (e.g., tcp, udp)"),
   ("Inbound", "Inbound tags to match"),
   ("ProcessName", "Process names to match"),
   ("ProcessPath", "Process paths to match"),
   ("User", "User names to match"),
   ("RuleSet", "Rule set references"),
   ("Invert", "Invert the rule match result"),
   ("IPIsPrivate", "Match private IP addresses"),
   ("SourceIPIsPrivate", "Match private source IP addresses")]

/-- `Builder.getFieldDescription` (`builder.go`): table lookup, `""` for
unknown names. -/
def getFieldDescription (fieldName : String) : String :=
  match List.lookup fieldName fieldDescriptions with
  | some d => d
  | none => ""

/-- `Builder.fieldNameToLabel` (`builder.go`): space-splits a PascalCase name
by inspecting each character and its successor. -/
def fieldNameToLabel (name : String) : String :=
  let cs := name.toList
  let n := cs.length
  String.mk (List.flatten ((List.range n).map fun i =>
    let r := cs.getD i ' '
    let isCurrentUpper := decide ('A' ≤ r) && decide (r ≤ 'Z')
    let isCurrentLower := decide ('a' ≤ r) && decide (r ≤ 'z')
    let nx := cs.getD (i + 1) ' '
    let isNextLower := decide (i + 1 < n) && decide ('a' ≤ nx) && decide (nx ≤ 'z')
    (if decide (0 < i) && isCurrentUpper && isNextLower then [' '] else []) ++ [r] ++
      (if decide (0 < i) && isCurrentLower && !isNextLower then [' '] else [])))

/-- `Builder.typeNameToTitle` (`builder.go`): strip a `"Raw"` marker at the
start of the name, then put a space before every capital after position 0. -/
def typeNameToTitle (name : String) : String :=
  let name := if name.startsWith "Raw" then name.drop 3 else name
  let cs := name.toList
  String.mk (List.flatten ((List.range cs.length).map fun i =>
    let r := cs.getD i ' '
    (if decide (0 < i) && decide ('A' ≤ r) && decide (r ≤ 'Z') then [' '] else []) ++ [r]))

/-- Modelled from the spec: the generated `types.RawDefaultRule` struct is not
part of the sources; its documented shape (README: `Inbound`, `Domain`,
`DomainSuffix`, `GeoIP` as `[]string` with `omitempty` JSON tags, `Port` as
`[]uint16`, plus the boolean invert-match field named by the builder's
description table) is modelled here. -/
def rawDefaultRuleFields : List GoStructField :=
  [{ name := "Inbound", jsonTag := "inbound,omitempty", typ := .slice .string },
   { name := "Domain", jsonTag := "domain,omitempty", typ := .slice .string },
   { name := "DomainSuffix", jsonTag := "domain_suffix,omitempty", typ := .slice .string },
   { name := "GeoIP", jsonTag := "geoip,omitempty", typ := .slice .string },
   { name := "Port", jsonTag := "port,omitempty", typ := .slice .uint16 },
   { name := "Invert", jsonTag := "invert,omitempty", typ := .bool },
   { name := "Outbound", jsonTag := "outbound,omitempty", typ := .string }]

/-- Modelled from the spec: the generated logical-rule struct (logic-mode
field restricted to and/or, nested sub-rules, invert flag). -/
def rawLogicalRuleFields : List GoStructField :=
  [{ name := "Mode", jsonTag := "mode,omitempty", typ := .string },
   { name := "Rules", jsonTag := "rules,omitempty", typ := .slice .other },
   { name := "Invert", jsonTag := "invert,omitempty", typ := .bool }]

/-- Modelled from the spec: the generated DNS-rule structs and rule-set
structs (shapes analogous to the route rules; only their presence in the
known-type set matters to the properties). -/
def rawDefaultDNSRuleFields : List GoStructField :=
  [{ name := "Domain", jsonTag := "domain,omitempty", typ := .slice .string },
   { name := "Server", jsonTag := "server,omitempty", typ := .string },
   { name := "DisableCache", jsonTag := "disable_cache,omitempty", typ := .bool }]

/-- Modelled from the spec: the generated logical DNS-rule struct. -/
def rawLogicalDNSRuleFields : List GoStructField :=
  [{ name := "Mode", jsonTag := "mode,omitempty", typ := .string },
   { name := "Rules", jsonTag := "rules,omitempty", typ := .slice .other },
   { name := "Invert", jsonTag := "invert,omitempty", typ := .bool }]

/-- Modelled from the spec: the generated local rule-set struct. -/
def localRuleSetFields : List GoStructField :=
  [{ name := "Type", jsonTag := "type", typ := .string },
   { name := "Tag", jsonTag := "tag", typ := .string },
   { name := "Format", jsonTag := "format,omitempty", typ := .string },
   { name := "Path", jsonTag := "path,omitempty", typ := .string }]

/-- Modelled from the spec: the generated remote rule-set struct. -/
def remoteRuleSetFields : List GoStructField :=
  [{ name := "Type", jsonTag := "type", typ := .string },
   { name := "Tag", jsonTag := "tag", typ := .string },
   { name := "Format", jsonTag := "format,omitempty", typ := .string },
   { name := "URL", jsonTag := "url,omitempty", typ := .string },
   { name := "DownloadDetour", jsonTag := "download_detour,omitempty", typ := .string },
   { name := "UpdateInterval", jsonTag := "update_interval,omitempty", typ := .string }]

/-- The rule-type switch at the top of `Builder.BuildForm` (`builder.go`):
the six known type names and the reflected field list of each. -/
def typeStructFields : String → Option (List GoStructField)
  | "RawDefaultRule" => some rawDefaultRuleFields
  | "RawLogicalRule" => some rawLogicalRuleFields
  | "RawDefaultDNSRule" => some rawDefaultDNSRuleFields
  | "RawLogicalDNSRule" => some rawLogicalDNSRuleFields
  | "LocalRuleSet" => some localRuleSetFields
  | "RemoteRuleSet" => some remoteRuleSetFields
  | _ => none

/-- The unsupported-rule-type error of `BuildForm`. -/
inductive FormError where
  | unsupportedType (name : String)

/-- The per-field body of the loop in `BuildForm`: skip suppressed JSON tags,
take the JSON key from the tag, infer the widget, attach the description. -/
def buildFormField (f : GoStructField) : Option FormField :=
  if f.jsonTag = "" ∨ f.jsonTag = "-" then none
  else
    let jsonName := String.mk (f.jsonTag.data.takeWhile (fun c => !(c == ',')))
    let ff : FormField :=
      { name := f.name, label := fieldNameToLabel f.name, fieldType := .text,
        jsonTag := jsonName, placeholder := "", required := false, isArray := false,
        arrayType := "", options := [], description := "" }
    let ff := determineFieldType ff f.typ
    some { ff with description := getFieldDescription f.name }

/-- `Builder.BuildForm` (`builder.go`). -/
def BuildForm (ruleTypeName : String) : Except FormError FormDefinition :=
  match typeStructFields ruleTypeName with
  | none => .error (.unsupportedType ruleTypeName)
  | some fs =>
      .ok { name := ruleTypeName, title := typeNameToTitle ruleTypeName,
            fields := fs.filterMap buildFormField }

/-- The `nil`/empty-slice collapse performed by one unmarshal/marshal round
trip: an empty slice present in the document is dropped by `omitempty` on
marshalling and read back as the `nil` slice. -/
def normalizeSlice : Option (List Json) → Option (List Json)
  | some [] => none
  | x => x

/-- The fixed point a document reaches after one load/save round trip: empty
slices collapse to `nil` in every section. -/
def normalizeConfig (c : Config) : Config :=
  ⟨c.log, c.dns, normalizeSlice c.inbounds, normalizeSlice c.outbounds,
   c.route.map fun r => ⟨normalizeSlice r.rules, normalizeSlice r.rule_action, r.final⟩⟩

/-! ## Theorems -/

/-- `BackupConfig` with no configuration file present is the identity. -/
theorem backupConfig_none (fs : FS) (ts : Nat) (tsStr : String) (w : Bool)
    (h : fs.config = none) : BackupConfig fs ts tsStr w = (fs, .ok ()) := by
  unfold BackupConfig
  rw [h]

/-- `BackupConfig` with a configuration file present and working writes
appends exactly one snapshot of the current contents. -/
theorem backupConfig_some (fs : FS) (ts : Nat) (tsStr : String) (old : FileData)
    (h : fs.config = some old) :
    BackupConfig fs ts tsStr true =
      ({ fs with
          backups := fs.backups ++
            [{ filename := backupFilename ("Auto backup " ++ tsStr) tsStr, data := old, modTime := ts }],
          metas := fs.metas ++
            [(metadataFilename ("Auto backup " ++ tsStr) tsStr,
              { name := "Auto backup " ++ tsStr, description := "Automatic backup",
                timestamp := ts, config_file := backupFilename ("Auto backup " ++ tsStr) tsStr,
                version := "1.0" })] }, .ok ()) := by
  unfold BackupConfig CreateBackupWithName
  rw [h]
  rfl

/-- `BackupConfig` with a configuration file present and failing writes
reports the failure and leaves the state unchanged. -/
theorem backupConfig_fail (fs : FS) (ts : Nat) (tsStr : String) (old : FileData)
    (h : fs.config = some old) :
    BackupConfig fs ts tsStr false = (fs, .error .backupError) := by
  unfold BackupConfig CreateBackupWithName
  rw [h]
  rfl

/-- C7: `createBackup(name, description)` when no configuration file exists is
a no-op: it succeeds without writing any backup or metadata file, and
`listBackups()` afterwards returns the same records as before the call. -/
theorem create_backup_noop (fs : FS) (name description : String) (ts : Nat) (tsStr : String)
    (writeOk : Bool) (h : fs.config = none) :
    CreateBackupWithName fs name description ts tsStr writeOk = (fs, .ok ()) ∧
    ListBackups (CreateBackupWithName fs name description ts tsStr writeOk).1 = ListBackups fs := by
  have he : CreateBackupWithName fs name description ts tsStr writeOk = (fs, .ok ()) := by
    unfold CreateBackupWithName
    rw [h]
  exact ⟨he, by rw [he]⟩

/-- Witness for `create_backup_noop` on an empty file system. -/
theorem create_backup_noop_witness :
    CreateBackupWithName ⟨none, [], []⟩ "My Backup" "demo" 5 "20240101-000000" true =
      (⟨none, [], []⟩, .ok ()) ∧
    ListBackups (CreateBackupWithName ⟨none, [], []⟩ "My Backup" "demo" 5 "20240101-000000" true).1 =
      ListBackups ⟨none, [], []⟩ :=
  create_backup_noop ⟨none, [], []⟩ "My Backup" "demo" 5 "20240101-000000" true rfl

/-- C6: `load()` returns the default document (empty rule list, final target
`"direct"`) when the file is absent, leaving the file system untouched; a read
error on I/O failure other than not-found; a parse error when `json.Unmarshal`
of the contents fails; and the parsed document otherwise. -/
theorem load_config_spec (fs : FS) :
    (LoadConfig fs true = (fs, .error .readError)) ∧
    (fs.config = none →
       LoadConfig fs false =
         (fs, .ok { log := none, dns := none, inbounds := none, outbounds := none,
                    route := some { rules := some [], rule_action := none, final := "direct" } })) ∧
    (∀ s, fs.config = some (.malformed s) → LoadConfig fs false = (fs, .error .parseError)) ∧
    (∀ v fmt, fs.config = some (.json v fmt) → decodeConfig v = none →
       LoadConfig fs false = (fs, .error .parseError)) ∧
    (∀ v fmt c, fs.config = some (.json v fmt) → decodeConfig v = some c →
       LoadConfig fs false = (fs, .ok c)) := by
  refine ⟨rfl, ?_, ?_, ?_, ?_⟩
  · intro h
    unfold LoadConfig
    rw [h]
    rfl
  · intro s h
    unfold LoadConfig
    rw [h]
    rfl
  · intro v fmt h hd
    unfold LoadConfig
    rw [h]
    simp [FileData.parse, hd]
  · intro v fmt c h hd
    unfold LoadConfig
    rw [h]
    simp [FileData.parse, hd]

/-- Witness for `load_config_spec`: the absent-file, malformed-file and
well-formed-file cases at concrete file systems. -/
theorem load_config_spec_witness :
    (LoadConfig ⟨none, [], []⟩ false =
      (⟨none, [], []⟩,
        .ok ⟨none, none, none, none, some ⟨some [], none, "direct"⟩⟩)) ∧
    (LoadConfig ⟨some (.malformed "oops"), [], []⟩ false =
      (⟨some (.malformed "oops"), [], []⟩, .error .parseError)) ∧
    (LoadConfig ⟨some (.json (.obj []) 3), [], []⟩ false =
      (⟨some (.json (.obj []) 3), [], []⟩, .ok ⟨none, none, none, none, none⟩)) :=
  ⟨(load_config_spec _).2.1 rfl,
   (load_config_spec _).2.2.1 "oops" rfl,
   (load_config_spec _).2.2.2.2 (.obj []) 3 ⟨none, none, none, none, none⟩ rfl rfl⟩

/-- C2: `restoreBackup(name)` fails and leaves the live configuration file
byte-for-byte unchanged when the named backup is missing or its contents are
not parseable; when the backup is valid, the live file is first backed up and
then overwritten with the backup's raw contents. -/
theorem restore_backup_spec (fs : FS) (backupName : String) (ts : Nat) (tsStr : String)
    (junk : Option FileData) :
    (∀ bOk wOk, lookupBackup fs backupName = none →
        RestoreBackup fs backupName ts tsStr bOk wOk junk = (fs, .error .readBackupError)) ∧
    (∀ bOk wOk d, lookupBackup fs backupName = some d → d.parse >>= decodeConfig = none →
        RestoreBackup fs backupName ts tsStr bOk wOk junk = (fs, .error .invalidBackupError)) ∧
    (∀ d c, lookupBackup fs backupName = some d → d.parse >>= decodeConfig = some c →
        (RestoreBackup fs backupName ts tsStr true true junk).2 = .ok () ∧
        (RestoreBackup fs backupName ts tsStr true true junk).1.config = some d ∧
        (∀ old, fs.config = some old →
            ∃ e ∈ (RestoreBackup fs backupName ts tsStr true true junk).1.backups,
              e.data = old)) := by
  refine ⟨?_, ?_, ?_⟩
  · intro bOk wOk h
    unfold RestoreBackup
    rw [h]
  · intro bOk wOk d h hd
    unfold RestoreBackup
    rw [h]
    simp only [hd]
  · intro d c h hd
    have key : ∀ fs1, BackupConfig fs ts tsStr true = (fs1, .ok ()) →
        RestoreBackup fs backupName ts tsStr true true junk =
          ({ fs1 with config := some d }, .ok ()) := by
      intro fs1 hb
      unfold RestoreBackup
      rw [h]
      simp only [hd, hb]
      rfl
    rcases hcfg : fs.config with _ | old
    · rw [key fs (backupConfig_none fs ts tsStr true hcfg)]
      exact ⟨rfl, rfl, by intro o ho; simp at ho⟩
    · rw [key _ (backupConfig_some fs ts tsStr old hcfg)]
      refine ⟨rfl, rfl, ?_⟩
      intro o ho
      injection ho with ho2
      subst ho2
      exact ⟨_, List.mem_append_right _ (List.mem_singleton_self _), rfl⟩

/-- Witness for `restore_backup_spec`: a missing backup, a malformed backup
and a valid backup on concrete file systems. -/
theorem restore_backup_spec_witness :
    (RestoreBackup ⟨some (.json (.obj []) 1), [], []⟩ "nope.json" 7 "20240101-000000" true true none =
      (⟨some (.json (.obj []) 1), [], []⟩, .error .readBackupError)) ∧
    (RestoreBackup ⟨some (.json (.obj []) 1), [⟨"bad.json", .malformed "x", 2⟩], []⟩
        "bad.json" 7 "20240101-000000" true true none =
      (⟨some (.json (.obj []) 1), [⟨"bad.json", .malformed "x", 2⟩], []⟩, .error .invalidBackupError)) ∧
    ((RestoreBackup ⟨some (.json (.obj []) 1), [⟨"good.json", .json (.obj []) 4, 2⟩], []⟩
        "good.json" 7 "20240101-000000" true true none).1.config = some (.json (.obj []) 4)) :=
  ⟨(restore_backup_spec ⟨some (.json (.obj []) 1), [], []⟩
      "nope.json" 7 "20240101-000000" none).1 true true rfl,
   (restore_backup_spec ⟨some (.json (.obj []) 1), [⟨"bad.json", .malformed "x", 2⟩], []⟩
      "bad.json" 7 "20240101-000000" none).2.1 true true (.malformed "x") rfl rfl,
   ((restore_backup_spec ⟨some (.json (.obj []) 1), [⟨"good.json", .json (.obj []) 4, 2⟩], []⟩
      "good.json" 7 "20240101-000000" none).2.2 (.json (.obj []) 4)
      ⟨none, none, none, none, none⟩ rfl rfl).2.1⟩

/-- C3: `save(document)` backs up the currently persisted file before
overwriting (skipping the backup when no file exists), reports an error when
either the backup step or the write step fails, and — whatever happens — never
leaves the system without a copy of the previously persisted contents: they
survive in the live file or in a backup entry, even when the write step
scribbles arbitrary `junk`. -/
theorem save_config_spec (fs : FS) (cfg : Config) (ts : Nat) (tsStr : String)
    (backupOk writeOk : Bool) (junk : Option FileData) :
    (fs.config = none →
        (SaveConfig fs cfg ts tsStr backupOk writeOk junk).1.backups = fs.backups ∧
        (SaveConfig fs cfg ts tsStr backupOk writeOk junk).1.metas = fs.metas) ∧
    (∀ old, fs.config = some old → backupOk = false →
        SaveConfig fs cfg ts tsStr backupOk writeOk junk = (fs, .error .backupError)) ∧
    (∀ old, fs.config = some old → backupOk = true →
        ∃ e ∈ (SaveConfig fs cfg ts tsStr backupOk writeOk junk).1.backups, e.data = old) ∧
    ((fs.config = none ∨ backupOk = true) → writeOk = true →
        (SaveConfig fs cfg ts tsStr backupOk writeOk junk).2 = .ok () ∧
        (SaveConfig fs cfg ts tsStr backupOk writeOk junk).1.config =
          some (.json (encodeConfig cfg) 0)) ∧
    ((fs.config = none ∨ backupOk = true) → writeOk = false →
        (SaveConfig fs cfg ts tsStr backupOk writeOk junk).2 = .error .writeError) ∧
    (∀ old, fs.config = some old →
        (SaveConfig fs cfg ts tsStr backupOk writeOk junk).1.config = some old ∨
        ∃ e ∈ (SaveConfig fs cfg ts tsStr backupOk writeOk junk).1.backups, e.data = old) := by
  rcases hc : fs.config with _ | old
  · have hb := backupConfig_none fs ts tsStr backupOk hc
    refine ⟨?_, ?_, ?_, ?_, ?_, ?_⟩
    · intro _
      unfold SaveConfig
      rw [hb]
      cases writeOk <;> exact ⟨rfl, rfl⟩
    · intro old h0
      simp at h0
    · intro old h0
      simp at h0
    · intro _ hw
      subst hw
      unfold SaveConfig
      rw [hb]
      exact ⟨rfl, rfl⟩
    · intro _ hw
      subst hw
      unfold SaveConfig
      rw [hb]
      rfl
    · intro old h0
      simp at h0
  · refine ⟨?_, ?_, ?_, ?_, ?_, ?_⟩
    · intro h0
      simp at h0
    · intro o ho hb
      subst hb
      injection ho with ho2
      subst ho2
      unfold SaveConfig
      rw [backupConfig_fail fs ts tsStr old hc]
    · intro o ho hb
      subst hb
      injection ho with ho2
      subst ho2
      unfold SaveConfig
      rw [backupConfig_some fs ts tsStr old hc]
      cases writeOk <;>
        exact ⟨_, List.mem_append_right _ (List.mem_singleton_self _), rfl⟩
    · intro hor hw
      subst hw
      rcases hor with h0 | hb
      · simp at h0
      · subst hb
        unfold SaveConfig
        rw [backupConfig_some fs ts tsStr old hc]
        exact ⟨rfl, rfl⟩
    · intro hor hw
      subst hw
      rcases hor with h0 | hb
      · simp at h0
      · subst hb
        unfold SaveConfig
        rw [backupConfig_some fs ts tsStr old hc]
        rfl
    · intro o ho
      injection ho with ho2
      subst ho2
      cases backupOk
      · left
        unfold SaveConfig
        rw [backupConfig_fail fs ts tsStr old hc]
        exact hc
      · right
        unfold SaveConfig
        rw [backupConfig_some fs ts tsStr old hc]
        cases writeOk <;>
          exact ⟨_, List.mem_append_right _ (List.mem_singleton_self _), rfl⟩

/-- Witness for `save_config_spec`: a concrete save over an existing file with
a failing write step still keeps the old contents in a backup entry. -/
theorem save_config_spec_witness :
    (∃ e ∈ (SaveConfig ⟨some (.json (.obj []) 9), [], []⟩ ⟨none, none, none, none, none⟩
        3 "20240101-000000" true false (some (.malformed "torn"))).1.backups,
      e.data = .json (.obj []) 9) ∧
    (SaveConfig ⟨some (.json (.obj []) 9), [], []⟩ ⟨none, none, none, none, none⟩
        3 "20240101-000000" true false (some (.malformed "torn"))).2 = .error .writeError :=
  ⟨(save_config_spec ⟨some (.json (.obj []) 9), [], []⟩ ⟨none, none, none, none, none⟩
      3 "20240101-000000" true false (some (.malformed "torn"))).2.2.1 (.json (.obj []) 9) rfl rfl,
   (save_config_spec ⟨some (.json (.obj []) 9), [], []⟩ ⟨none, none, none, none, none⟩
      3 "20240101-000000" true false (some (.malformed "torn"))).2.2.2.2.1 (Or.inr rfl) rfl⟩

/-- The delay-test loop is a per-member map: appending one result per member
builds exactly the mapped list. -/
theorem handleProxyGroupDelayTest_eq_map (members : List String)
    (oracle : String → Except String Nat) :
    handleProxyGroupDelayTest members oracle = members.map (delayResultFor oracle) := by
  have general : ∀ (ms : List String) (acc : List DelayResult),
      ms.foldl (fun results m => results ++ [delayResultFor oracle m]) acc =
        acc ++ ms.map (delayResultFor oracle) := by
    intro ms
    induction ms with
    | nil => simp
    | cons m rest ih => intro acc; simp [ih]
  simpa using general members []

/-- C8: the bulk delay test over a group returns exactly one result entry per
member, in order; a member whose test succeeds contributes its measured
latency, a member whose test errors contributes delay 0 and the error text —
and one member's failure never shortens or aborts the batch. -/
theorem group_delay_test_spec (members : List String) (oracle : String → Except String Nat) :
    (handleProxyGroupDelayTest members oracle).length = members.length ∧
    (∀ i (hi : i < members.length),
       ∃ r, (handleProxyGroupDelayTest members oracle)[i]? = some r ∧
         r.name = members[i] ∧
         (∀ d, oracle members[i] = .ok d → r.delay = d ∧ r.error = none) ∧
         (∀ e, oracle members[i] = .error e → r.delay = 0 ∧ r.error = some e)) := by
  rw [handleProxyGroupDelayTest_eq_map]
  refine ⟨by simp, ?_⟩
  intro i hi
  refine ⟨delayResultFor oracle members[i], ?_, ?_, ?_, ?_⟩
  · simp [List.getElem?_eq_getElem hi]
  · rcases ho : oracle members[i] with e | d <;> simp [delayResultFor, ho]
  · intro d hd
    simp [delayResultFor, hd]
  · intro e he
    simp [delayResultFor, he]

/-- Witness for `group_delay_test_spec`: a three-member group whose middle
member errors still yields three entries, the middle one carrying the error. -/
theorem group_delay_test_spec_witness :
    (handleProxyGroupDelayTest ["proxy-a", "proxy-b", "proxy-c"]
        (fun m => if m = "proxy-b" then .error "request timeout" else .ok 42)).length = 3 ∧
    ∃ r, (handleProxyGroupDelayTest ["proxy-a", "proxy-b", "proxy-c"]
        (fun m => if m = "proxy-b" then .error "request timeout" else .ok 42))[1]? = some r ∧
      r.delay = 0 ∧ r.error = some "request timeout" := by
  have h := group_delay_test_spec ["proxy-a", "proxy-b", "proxy-c"]
    (fun m => if m = "proxy-b" then .error "request timeout" else .ok 42)
  refine ⟨h.1, ?_⟩
  obtain ⟨r, h1, _, _, h4⟩ := h.2 1 (by decide)
  exact ⟨r, h1, h4 "request timeout" (by rfl)⟩

/-- A list is a permutation of its `i`-th element consed onto its
`i`-th-removal. -/
theorem perm_get_cons_eraseIdx :
    ∀ {α : Type} (l : List α) (i : Nat) (h : i < l.length),
      List.Perm l (l.get ⟨i, h⟩ :: l.eraseIdx i)
  | _, a :: t, 0, _ => by simp
  | _, a :: t, i + 1, h => by
      have ih := perm_get_cons_eraseIdx t i (by simpa using h)
      exact (List.Perm.cons a ih).trans (List.Perm.swap _ a _)

/-- C4 (amended): the reorder move is defined for every pair of in-bounds
indices and always preserves the multiset of entries; the moved entry lands at
index `toIndex` when moving towards the front (`toIndex ≤ fromIndex`) but at
index `toIndex - 1` when moving towards the back (`fromIndex < toIndex`). -/
theorem reorder_preserves_multiset (l : List Json) (fromIndex toIndex : Nat)
    (h1 : fromIndex < l.length) (h2 : toIndex < l.length) :
    ∃ out, reorderMove l fromIndex toIndex = some out ∧
      List.Perm out l ∧
      out[if fromIndex < toIndex then toIndex - 1 else toIndex]? = l[fromIndex]? := by
  have hrest : (l.eraseIdx fromIndex).length = l.length - 1 := by
    rw [List.length_eraseIdx]
    simp [h1]
  have ht2 : (if fromIndex < toIndex then toIndex - 1 else toIndex) ≤
      (l.eraseIdx fromIndex).length := by
    rw [hrest]
    split <;> omega
  refine ⟨(l.eraseIdx fromIndex).take (if fromIndex < toIndex then toIndex - 1 else toIndex) ++
      l.get ⟨fromIndex, h1⟩ ::
        (l.eraseIdx fromIndex).drop (if fromIndex < toIndex then toIndex - 1 else toIndex),
    ?_, ?_, ?_⟩
  · unfold reorderMove
    rw [dif_pos ⟨h1, h2⟩]
  · have hmid : List.Perm
        ((l.eraseIdx fromIndex).take (if fromIndex < toIndex then toIndex - 1 else toIndex) ++
          l.get ⟨fromIndex, h1⟩ ::
            (l.eraseIdx fromIndex).drop (if fromIndex < toIndex then toIndex - 1 else toIndex))
        (l.get ⟨fromIndex, h1⟩ ::
          ((l.eraseIdx fromIndex).take (if fromIndex < toIndex then toIndex - 1 else toIndex) ++
            (l.eraseIdx fromIndex).drop (if fromIndex < toIndex then toIndex - 1 else toIndex))) :=
      List.perm_middle
    rw [List.take_append_drop] at hmid
    exact hmid.trans (perm_get_cons_eraseIdx l fromIndex h1).symm
  · have hlen : ((l.eraseIdx fromIndex).take
        (if fromIndex < toIndex then toIndex - 1 else toIndex)).length =
        (if fromIndex < toIndex then toIndex - 1 else toIndex) := by
      simp [ht2]
    rw [List.getElem?_append_right (by rw [hlen]), hlen, Nat.sub_self]
    simp [List.getElem?_eq_getElem h1]

/-- Witness for `reorder_preserves_multiset`: moving the last rule of a
three-rule list to the front. -/
theorem reorder_preserves_multiset_witness :
    ∃ out, reorderMove [Json.str "a", Json.str "b", Json.str "c"] 2 0 = some out ∧
      List.Perm out [Json.str "a", Json.str "b", Json.str "c"] ∧
      out[0]? = some (Json.str "c") := by
  obtain ⟨out, e1, e2, e3⟩ :=
    reorder_preserves_multiset [Json.str "a", Json.str "b", Json.str "c"] 2 0
      (by decide) (by decide)
  exact ⟨out, e1, e2, e3.trans rfl⟩

/-- C4 counterexample: moving the rule at index 0 to index 2 in a three-rule
list does not produce the move-to-end permutation — the moved rule lands at
index 1 (the `toIndex` decrement), so the expected permutation for
move-to-end fails. -/
theorem reorder_move_to_end_counterexample :
    handleRuleReorder [Json.str "r0", Json.str "r1", Json.str "r2"] 0 2 =
      some [Json.str "r1", Json.str "r0", Json.str "r2"] ∧
    handleRuleReorder [Json.str "r0", Json.str "r1", Json.str "r2"] 0 2 ≠
      some [Json.str "r1", Json.str "r2", Json.str "r0"] := by
  have e : handleRuleReorder [Json.str "r0", Json.str "r1", Json.str "r2"] 0 2 =
      some [Json.str "r1", Json.str "r0", Json.str "r2"] := rfl
  refine ⟨e, ?_⟩
  intro h
  rw [e] at h
  simp at h

/-- The successive `ReplaceAll` passes of `sanitizeFilename` amount to one
character map: every invalid character and the space become a dash, everything
else is kept. -/
theorem sanitize_toList (name : String) :
    (sanitizeFilename name).data =
      trimChar '-' (name.data.map fun c =>
        if c = '/' ∨ c = '\\' ∨ c = ':' ∨ c = '*' ∨ c = '?' ∨ c = '"' ∨ c = '<' ∨ c = '>' ∨
            c = '|' ∨ c = ' ' then '-' else c) := by
  show trimChar '-' _ = trimChar '-' _
  congr 1
  unfold invalidFilenameChars replaceAllChar
  simp only [List.foldl_cons, List.foldl_nil, List.map_map]
  apply List.map_congr_left
  intro c _
  by_cases h1 : c = '/'
  · subst h1; rfl
  by_cases h2 : c = '\\'
  · subst h2; rfl
  by_cases h3 : c = ':'
  · subst h3; rfl
  by_cases h4 : c = '*'
  · subst h4; rfl
  by_cases h5 : c = '?'
  · subst h5; rfl
  by_cases h6 : c = '"'
  · subst h6; rfl
  by_cases h7 : c = '<'
  · subst h7; rfl
  by_cases h8 : c = '>'
  · subst h8; rfl
  by_cases h9 : c = '|'
  · subst h9; rfl
  by_cases h10 : c = ' '
  · subst h10; rfl
  simp [Function.comp, h1, h2, h3, h4, h5, h6, h7, h8, h9, h10]

/-- `trimChar` only removes characters. -/
theorem trimChar_subset (t : Char) (l : List Char) (c : Char) (hc : c ∈ trimChar t l) :
    c ∈ l := by
  unfold trimChar at hc
  rw [List.mem_reverse] at hc
  have hc2 := (List.dropWhile_sublist (· == t)).subset hc
  rw [List.mem_reverse] at hc2
  exact (List.dropWhile_sublist (· == t)).subset hc2

/-- The head surviving `dropWhile` fails the predicate. -/
theorem dropWhile_head_not {α : Type} (p : α → Bool) (l : List α) :
    ∀ x, (l.dropWhile p).head? = some x → p x = false := by
  induction l with
  | nil => simp
  | cons a t ih =>
    intro x hx
    rw [List.dropWhile_cons] at hx
    by_cases hpa : p a
    · rw [if_pos hpa] at hx
      exact ih x hx
    · rw [if_neg hpa] at hx
      simp at hx
      subst hx
      simpa using hpa

/-- `dropWhile` keeps the last element when that element fails the
predicate. -/
theorem getLast_dropWhile {α : Type} (p : α → Bool) (l : List α) :
    ∀ x, l.getLast? = some x → p x = false → (l.dropWhile p).getLast? = some x := by
  induction l with
  | nil => simp
  | cons a t ih =>
    intro x hx hpx
    rw [List.dropWhile_cons]
    by_cases hpa : p a
    · rw [if_pos hpa]
      cases t with
      | nil =>
        simp at hx
        subst hx
        rw [hpx] at hpa
        cases hpa
      | cons b u =>
        rw [List.getLast?_cons_cons] at hx
        exact ih x hx hpx
    · rw [if_neg hpa]
      exact hx

/-- The first character surviving `trimChar` differs from the trimmed one. -/
theorem trimChar_head (t : Char) (l : List Char) :
    ∀ x, (trimChar t l).head? = some x → (x == t) = false := by
  intro x hx
  unfold trimChar at hx
  rw [List.head?_reverse] at hx
  rcases hd : (l.dropWhile (· == t)).head? with _ | y
  · rw [List.head?_eq_none_iff] at hd
    rw [hd] at hx
    simp at hx
  · have hy := dropWhile_head_not (· == t) l y hd
    have hgl : (l.dropWhile (· == t)).reverse.getLast? = some y := by
      rw [List.getLast?_reverse]
      exact hd
    rw [getLast_dropWhile (· == t) _ y hgl hy] at hx
    injection hx with hx
    subst hx
    exact hy

/-- The last character surviving `trimChar` differs from the trimmed one. -/
theorem trimChar_last (t : Char) (l : List Char) :
    ∀ x, (trimChar t l).getLast? = some x → (x == t) = false := by
  intro x hx
  unfold trimChar at hx
  rw [List.getLast?_reverse] at hx
  exact dropWhile_head_not _ _ x hx

/-- C10: `sanitizeFilename` output contains none of the invalid filename
characters and no space, and neither starts nor ends with a dash; and the
backup/metadata filenames built from any user-supplied name (with the
`"backup"` fallback for an empty sanitized name) contain no path separator and
are not `""`, `"."` or `".."` — a single safe path component inside the backup
directory. -/
theorem sanitize_filename_spec (name tsStr : String) :
    (∀ c ∈ (sanitizeFilename name).data, c ∉ invalidFilenameChars ∧ c ≠ ' ') ∧
    ((sanitizeFilename name).data.head? ≠ some '-') ∧
    ((sanitizeFilename name).data.getLast? ≠ some '-') ∧
    ((∀ c ∈ tsStr.data, c ≠ '/' ∧ c ≠ '\\') →
       (∀ c ∈ (backupFilename name tsStr).data, c ≠ '/' ∧ c ≠ '\\') ∧
       (∀ c ∈ (metadataFilename name tsStr).data, c ≠ '/' ∧ c ≠ '\\') ∧
       backupFilename name tsStr ≠ "" ∧ backupFilename name tsStr ≠ "." ∧
       backupFilename name tsStr ≠ "..") := by
  have hmain : ∀ c ∈ (sanitizeFilename name).data, c ∉ invalidFilenameChars ∧ c ≠ ' ' := by
    intro c hc
    rw [sanitize_toList] at hc
    have hc2 := trimChar_subset '-' _ c hc
    rw [List.mem_map] at hc2
    obtain ⟨a, _, ha⟩ := hc2
    by_cases hd : a = '/' ∨ a = '\\' ∨ a = ':' ∨ a = '*' ∨ a = '?' ∨ a = '"' ∨ a = '<' ∨
        a = '>' ∨ a = '|' ∨ a = ' '
    · rw [if_pos hd] at ha
      subst ha
      decide
    · rw [if_neg hd] at ha
      subst ha
      push_neg at hd
      obtain ⟨n1, n2, n3, n4, n5, n6, n7, n8, n9, n10⟩ := hd
      refine ⟨?_, n10⟩
      intro hmem
      unfold invalidFilenameChars at hmem
      simp at hmem
      rcases hmem with h | h | h | h | h | h | h | h | h <;> simp_all
  have hsep : ∀ c ∈ (sanitizeFilename name).data, c ≠ '/' ∧ c ≠ '\\' := by
    intro c hc
    have h := (hmain c hc).1
    constructor
    · intro he
      subst he
      exact h (by decide)
    · intro he
      subst he
      exact h (by decide)
  refine ⟨hmain, ?_, ?_, ?_⟩
  · intro h
    have := trimChar_head '-' _ '-' h
    simp at this
  · intro h
    have := trimChar_last '-' _ '-' h
    simp at this
  · intro hts
    have hsafe : ∀ c ∈ (if sanitizeFilename name = "" then "backup" else sanitizeFilename name).data,
        c ≠ '/' ∧ c ≠ '\\' := by
      by_cases hs : sanitizeFilename name = ""
      · rw [if_pos hs]
        decide
      · rw [if_neg hs]
        exact hsep
    have hdash : ∀ c ∈ ("-" : String).data, c ≠ '/' ∧ c ≠ '\\' := by decide
    have hjson : ∀ c ∈ (".json" : String).data, c ≠ '/' ∧ c ≠ '\\' := by decide
    have hmeta : ∀ c ∈ (".meta" : String).data, c ≠ '/' ∧ c ≠ '\\' := by decide
    have hparts : ∀ c ∈ (backupFilename name tsStr).data, c ≠ '/' ∧ c ≠ '\\' := by
      intro c hc
      unfold backupFilename at hc
      rw [String.data_append, String.data_append, String.data_append] at hc
      rw [List.mem_append, List.mem_append, List.mem_append] at hc
      rcases hc with ((hc | hc) | hc) | hc
      · exact hsafe c hc
      · exact hdash c hc
      · exact hts c hc
      · exact hjson c hc
    have hlen : 6 ≤ (backupFilename name tsStr).data.length := by
      unfold backupFilename
      rw [String.data_append, String.data_append, String.data_append]
      simp only [List.length_append, List.length_cons, List.length_nil]
      omega
    refine ⟨hparts, ?_, ?_, ?_, ?_⟩
    · intro c hc
      unfold metadataFilename at hc
      rw [String.data_append] at hc
      rw [List.mem_append] at hc
      rcases hc with hc | hc
      · exact hparts c hc
      · exact hmeta c hc
    · intro h
      rw [h] at hlen
      exact absurd hlen (by decide)
    · intro h
      rw [h] at hlen
      exact absurd hlen (by decide)
    · intro h
      rw [h] at hlen
      exact absurd hlen (by decide)

/-- Witness for `sanitize_filename_spec`: a name full of invalid characters
still yields a safe single-component backup filename. -/
theorem sanitize_filename_spec_witness :
    (∀ c ∈ (sanitizeFilename "My: Back/up?").data, c ∉ invalidFilenameChars ∧ c ≠ ' ') ∧
    (∀ c ∈ (backupFilename "My: Back/up?" "20240101-000000").data, c ≠ '/' ∧ c ≠ '\\') ∧
    backupFilename "My: Back/up?" "20240101-000000" ≠ "" :=
  ⟨(sanitize_filename_spec "My: Back/up?" "20240101-000000").1,
   ((sanitize_filename_spec "My: Back/up?" "20240101-000000").2.2.2 (by decide)).1,
   ((sanitize_filename_spec "My: Back/up?" "20240101-000000").2.2.2 (by decide)).2.2.1⟩

/-- C9: the form builder maps the `[]string` field tagged
`json:"domain,omitempty"` to an array-kind descriptor with JSON key `domain`
and a non-empty description, maps every `bool` field to a checkbox, and
reports an unsupported-type error for a type name outside the known set. -/
theorem build_form_spec :
    (∃ fd, BuildForm "RawDefaultRule" = .ok fd ∧
       ∃ f ∈ fd.fields, f.name = "Domain" ∧ f.fieldType = .array ∧ f.isArray = true ∧
         f.jsonTag = "domain" ∧ f.description ≠ "") ∧
    (∀ ff : FormField, (determineFieldType ff .bool).fieldType = .checkbox) ∧
    (getFieldDescription "Domain" ≠ "") ∧
    (BuildForm "CustomRule" = .error (.unsupportedType "CustomRule")) := by
  refine ⟨⟨_, rfl, ?_⟩, fun ff => rfl, by decide, rfl⟩
  decide

/-- C1: `RenameOutbound` applied to a document holding a plain outbound
`"A"`, a selector whose member list and `default` both reference `"A"`, a rule
routing to `"A"` and route final `"A"` rewrites the tag, the member list, the
rule and the final target — but leaves the selector's `default` field as
`"A"`: the full-document scan still finds one occurrence of the old tag, not
zero. -/
theorem rename_outbound_leaves_selector_default :
    ∃ doc,
      savedDocument ((RenameOutbound
          ⟨some (.json (.obj
            [("outbounds", .arr
              [.obj [("type", .str "direct"), ("tag", .str "A")],
               .obj [("type", .str "selector"), ("tag", .str "S"),
                     ("outbounds", .arr [.str "A", .str "direct-out"]),
                     ("default", .str "A")]]),
             ("route", .obj
               [("rules", .arr
                  [.obj [("domain", .arr [.str "x.com"]), ("outbound", .str "A")]]),
                ("final", .str "A")])]) 1), [], []⟩
          "A" "B" 3 "20240101-000000" true true none false).1) = some doc ∧
      doc = .obj
        [("outbounds", .arr
          [.obj [("type", .str "direct"), ("tag", .str "B")],
           .obj [("type", .str "selector"), ("tag", .str "S"),
                 ("outbounds", .arr [.str "B", .str "direct-out"]),
                 ("default", .str "A")]]),
         ("route", .obj
           [("rules", .arr
              [.obj [("domain", .arr [.str "x.com"]), ("outbound", .str "B")]]),
            ("final", .str "B")])] ∧
      countTagRefs doc "A" = 1 ∧
      countTagRefs doc "B" = 4 := by
  exact ⟨_, rfl, rfl, by decide, by decide⟩

/-- Key lookup distributes over member-list concatenation. -/
theorem lookup_append (key : String) (a b : List (String × Json)) :
    Json.lookup key (a ++ b) =
      match Json.lookup key a with
      | some v => some v
      | none => Json.lookup key b := by
  induction a with
  | nil => simp [Json.lookup]
  | cons p t ih =>
    obtain ⟨k, v⟩ := p
    by_cases hk : k = key
    · simp [Json.lookup, hk]
    · simp [Json.lookup, hk, ih]

/-- Lookup over an `omitempty`-emitted untyped section. -/
theorem lookup_emitRaw (key k : String) (v : Option Json) :
    Json.lookup key (emitRaw k v) = if k = key then v else none := by
  rcases v with _ | x <;> simp [emitRaw, Json.lookup]

/-- Lookup over an `omitempty`-emitted slice field. -/
theorem lookup_emitArr (key k : String) (v : Option (List Json)) :
    Json.lookup key (emitArr k v) =
      if k = key then
        (match v with
         | some (x :: xs) => some (.arr (x :: xs))
         | _ => none)
      else none := by
  rcases v with _ | (_ | ⟨x, xs⟩) <;> simp [emitArr, Json.lookup]

/-- Lookup over an `omitempty`-emitted string field. -/
theorem lookup_emitStr (key k s : String) :
    Json.lookup key (emitStr k s) =
      if k = key then (if s = "" then none else some (.str s)) else none := by
  by_cases hs : s = "" <;> simp [emitStr, hs, Json.lookup]

/-- Decoding an encoded routing section succeeds and collapses empty slices. -/
theorem decodeRouteOptions_encode (r : RouteOptions) :
    decodeRouteOptions (emitArr "rules" r.rules ++ emitArr "rule_action" r.rule_action ++
        emitStr "final" r.final) =
      some ⟨normalizeSlice r.rules, normalizeSlice r.rule_action, r.final⟩ := by
  obtain ⟨rules, ra, fin⟩ := r
  unfold decodeRouteOptions decodeArrField decodeStrField
  by_cases hf : fin = "" <;>
    rcases rules with _ | (_ | ⟨x, xs⟩) <;> rcases ra with _ | (_ | ⟨y, ys⟩) <;>
      simp [lookup_append, lookup_emitArr, lookup_emitStr, normalizeSlice, hf, Json.lookup]

/-- Decoding an encoded document succeeds and yields the normalized
document. -/
theorem decodeConfig_encode (c : Config) :
    decodeConfig (encodeConfig c) = some (normalizeConfig c) := by
  obtain ⟨lg, dn, inb, outb, route⟩ := c
  rcases route with _ | r
  · unfold encodeConfig decodeConfig normalizeConfig
    rcases lg with _ | lgv <;> rcases dn with _ | dnv <;>
      rcases inb with _ | (_ | ⟨x, xs⟩) <;> rcases outb with _ | (_ | ⟨y, ys⟩) <;>
        simp [lookup_append, lookup_emitRaw, lookup_emitArr, decodeArrField, decodeRawField,
              normalizeSlice, Json.lookup]
  · obtain ⟨rules, ra, fin⟩ := r
    have hro : decodeRouteOptions (emitArr "rules" rules ++ emitArr "rule_action" ra ++
        emitStr "final" fin) = some ⟨normalizeSlice rules, normalizeSlice ra, fin⟩ :=
      decodeRouteOptions_encode ⟨rules, ra, fin⟩
    rw [List.append_assoc] at hro
    unfold encodeConfig decodeConfig normalizeConfig
    rcases lg with _ | lgv <;> rcases dn with _ | dnv <;>
      rcases inb with _ | (_ | ⟨x, xs⟩) <;> rcases outb with _ | (_ | ⟨y, ys⟩) <;>
        simp [lookup_append, lookup_emitRaw, lookup_emitArr, decodeArrField, decodeRawField,
              normalizeSlice, Json.lookup, encodeRouteOptions, hro]

/-- Re-encoding a normalized document produces the very same serialization. -/
theorem encodeConfig_normalize (c : Config) :
    encodeConfig (normalizeConfig c) = encodeConfig c := by
  obtain ⟨lg, dn, inb, outb, route⟩ := c
  have hslice : ∀ (k : String) (v : Option (List Json)), emitArr k (normalizeSlice v) = emitArr k v := by
    intro k v
    rcases v with _ | (_ | ⟨x, xs⟩) <;> rfl
  rcases route with _ | ⟨rules, ra, fin⟩ <;>
    simp [encodeConfig, normalizeConfig, encodeRouteOptions, hslice]

/-- C5 (amended): for every document in the serializer's normal form —
in particular for everything `save` itself ever writes — `save(load())`
returns exactly the same document bytes up to the whitespace normalization of
re-serialization; and in general `load` of an encoded document yields its
normalization, whose re-encoding is byte-identical. -/
theorem round_trip_normal_form (c : Config) (fmt ts : Nat) (tsStr : String)
    (backups : List BackupEntry) (metas : List (String × BackupMetadata)) :
    (LoadConfig ⟨some (.json (encodeConfig c) fmt), backups, metas⟩ false).2 =
      .ok (normalizeConfig c) ∧
    (SaveConfig ⟨some (.json (encodeConfig c) fmt), backups, metas⟩ (normalizeConfig c)
        ts tsStr true true none).1.config = some (.json (encodeConfig c) 0) := by
  constructor
  · unfold LoadConfig
    simp [FileData.parse, decodeConfig_encode]
  · unfold SaveConfig
    rw [backupConfig_some _ ts tsStr _ rfl]
    simp [encodeConfig_normalize]

/-- C5 counterexample: a valid document whose routing section holds an
explicitly empty `rules` array loses the `rules` field over `save(load())`:
the saved document no longer contains the key `rules` anywhere, which no
whitespace or key-ordering normalization can explain. -/
theorem round_trip_drops_empty_rules :
    ∃ c,
      (LoadConfig ⟨some (.json (.obj [("route", .obj [("rules", .arr []),
          ("final", .str "direct")])]) 5), [], []⟩ false).2 = .ok c ∧
      savedDocument ((SaveConfig ⟨some (.json (.obj [("route", .obj [("rules", .arr []),
          ("final", .str "direct")])]) 5), [], []⟩ c 3 "20240101-000000" true true none).1) =
        some (.obj [("route", .obj [("final", .str "direct")])]) ∧
      Json.hasKey "rules" (.obj [("route", .obj [("rules", .arr []),
        ("final", .str "direct")])]) = true ∧
      Json.hasKey "rules" (.obj [("route", .obj [("final", .str "direct")])]) = false :=
  ⟨_, rfl, rfl, rfl, rfl⟩

end SWC
